import Mathlib

/-!
Verification of the GLib URI branch (`glib/guri.c`): a shallow embedding of
the URI splitter, percent-decoder, component normalizers, path resolver and
params parser, together with theorems settling the specification claims.

Strings are modelled as lists of bytes (`List Nat`, each element < 256 in
practice), since the C code operates on `guchar` buffers and percent-decoding
can produce arbitrary bytes.  A C function returning a freshly allocated
string or `NULL`-with-`GError` is modelled as `Except GUriError (List Nat)`;
out-parameters that may stay `NULL` are modelled as `Option (List Nat)`.
-/

namespace GUriModel

/-- Byte strings: the C code works on `guchar *` buffers. -/
abbrev Bytes := List Nat

/-- ASCII bytes of a Lean string literal (used only to write test inputs). -/
def bytesOf (s : String) : Bytes := s.data.map Char.toNat

/-- `g_ascii_isalnum` from `glib/gctype`: ASCII letters and digits. -/
def gAsciiIsAlnum (c : Nat) : Bool :=
  (48 ≤ c && c ≤ 57) || (65 ≤ c && c ≤ 90) || (97 ≤ c && c ≤ 122)

/-- Characters allowed in the scheme scan of `g_uri_split`
(`g_ascii_isalnum (*p) || *p == '.' || *p == '+' || *p == '-'`). -/
def isSchemeChar (c : Nat) : Bool :=
  gAsciiIsAlnum c || c == 46 || c == 43 || c == 45

/-- Index of the first byte satisfying `p`, if any (models `memchr`/`strchr`
restricted to a region). -/
def firstIdxP (p : Nat → Bool) : Bytes → Option Nat
  | [] => none
  | c :: r => if p c then some 0 else (firstIdxP p r).map (· + 1)

/-- Index of the first byte satisfying `p`, or the length of the list
(models `p + strcspn (p, "...")`). -/
def firstIdxOrLen (p : Nat → Bool) (l : Bytes) : Nat :=
  (firstIdxP p l).getD l.length

/-- The `do { next_at = memchr (at + 1, '@', ...); if (next_at) at = next_at; }
while (next_at)` loop of `g_uri_split` in lenient mode: starting from the first
`'@'` at index `at0` of `auth`, repeatedly move to the next `'@'`.  `fuel`
bounds the iteration count (the index strictly increases and is bounded by
`auth.length`, so `auth.length` steps always suffice). -/
def lastAtLoop (auth : Bytes) (at0 : Nat) : Nat → Nat
  | 0 => at0
  | fuel + 1 =>
    match firstIdxP (fun c => c == 64) (auth.drop (at0 + 1)) with
    | none => at0
    | some j => lastAtLoop auth (at0 + 1 + j) fuel

/-- The seven out-parameters of `g_uri_split`.  Each is an `Option` because the
C function initialises every out-parameter to `NULL` and only assigns those
components that are present (the path is in fact always assigned; claim C3). -/
structure RawSplit where
  scheme : Option Bytes
  userinfo : Option Bytes
  host : Option Bytes
  port : Option Bytes
  path : Option Bytes
  query : Option Bytes
  fragment : Option Bytes
deriving DecidableEq, Repr

/-- `hostend = colon ? colon : path_start; *host = g_strndup (p, hostend - p)`:
the host is the region up to the colon when one was found, the whole region
otherwise. -/
def hostFromRegion (hostRegion : Bytes) (colon : Option Nat) : Bytes :=
  match colon with
  | some c => hostRegion.take c
  | none => hostRegion

/-- The authority block of `g_uri_split` (guri.c lines 889-963), applied to
the bytes `r2` that follow the `"//"`.  Returns
(userinfo, host, port, remainder-at-path_start). -/
def splitAuthority (r2 : Bytes) (strict : Bool) :
    Option Bytes × Option Bytes × Option Bytes × Bytes :=
  -- path_start = p + strcspn (p, "/?#")
  let ps0 := firstIdxOrLen (fun c => c == 47 || c == 63 || c == 35) r2
  let auth := r2.take ps0
  -- at = memchr (p, '@', path_start - p), extended to the last '@' when not
  -- strict
  let uiAndOff : Option Bytes × Nat :=
    match firstIdxP (fun c => c == 64) auth with
    | some a0 =>
      let a := if strict then a0 else lastAtLoop auth a0 auth.length
      (some (auth.take a), a + 1)
    | none => (none, 0)
  let userinfo := uiAndOff.1
  let pOff := uiAndOff.2
  -- lenient mode: semi = strchr (p, ';'); if (semi && semi < path_start)
  -- path_start = semi
  let ps1 :=
    if strict then ps0
    else
      match firstIdxP (fun c => c == 59) (r2.drop pOff) with
      | some j => if pOff + j < ps0 then pOff + j else ps0
      | none => ps0
  -- host region is r2[pOff, ps1)
  let hostRegion := (r2.take ps1).drop pOff
  -- colon: if *p == '[' the port colon must follow the close bracket
  let colon : Option Nat :=
    if (r2.drop pOff).head? == some 91 then
      match firstIdxP (fun c => c == 93) hostRegion with
      | some b =>
        if (r2.drop (pOff + b + 1)).head? == some 58 then some (b + 1)
        else none
      | none => none
    else firstIdxP (fun c => c == 58) hostRegion
  let host := some (hostFromRegion hostRegion colon)
  -- port present iff colon exists and is not the last char before path_start
  let port : Option Bytes :=
    match colon with
    | some c => if pOff + c + 1 ≠ ps1 then some (hostRegion.drop (c + 1))
                else none
    | none => none
  (userinfo, host, port, r2.drop ps1)

/-- Shallow embedding of `g_uri_split` (glib/guri.c lines 844-984).  It scans:
scheme (`[alnum.+-]*` followed by `:`), authority (present iff the remainder
starts with `//`; see `splitAuthority`), then fragment, query and path.
Byte values: '/'=47 '?'=63 '#'=35 '@'=64 ':'=58 ';'=59 '['=91 ']'=93. -/
def g_uri_split (s : Bytes) (strict : Bool) : RawSplit :=
  -- Find scheme: initial [a-z+.-]* substring until ":"
  let sch := s.takeWhile isSchemeChar
  let schemeAndRest : Option Bytes × Bytes :=
    if sch.length > 0 && (s.drop sch.length).head? == some 58 then
      (some sch, s.drop (sch.length + 1))
    else (none, s)
  let scheme := schemeAndRest.1
  let r := schemeAndRest.2
  -- Check for authority
  let afterAuth : Option Bytes × Option Bytes × Option Bytes × Bytes :=
    if r.take 2 = [47, 47] then splitAuthority (r.drop 2) strict
    else (none, none, none, r)
  let userinfo := afterAuth.1
  let host := afterAuth.2.1
  let port := afterAuth.2.2.1
  let rem := afterAuth.2.2.2
  -- Find fragment: end = p + strcspn (p, "#")
  let end1 := firstIdxOrLen (fun c => c == 35) rem
  let fragment := if end1 < rem.length then some (rem.drop (end1 + 1)) else none
  -- Find query: question = memchr (p, '?', end - p)
  let queryAndEnd : Option Bytes × Nat :=
    match firstIdxP (fun c => c == 63) (rem.take end1) with
    | some qi => (some ((rem.take end1).drop (qi + 1)), qi)
    | none => (none, end1)
  let query := queryAndEnd.1
  let end2 := queryAndEnd.2
  { scheme := scheme, userinfo := userinfo, host := host, port := port,
    path := some (rem.take end2), query := query, fragment := fragment }

/-- `GUriParseFlags` as a record of booleans (the C type is a bitmask with
bits STRICT, HTML5, NO_IRI, PASSWORD, AUTH_PARAMS, NON_DNS, DECODED,
UTF8_ONLY). -/
structure GUriParseFlags where
  strict : Bool
  html5 : Bool
  noIri : Bool
  password : Bool
  authParams : Bool
  nonDns : Bool
  decoded : Bool
  utf8Only : Bool
deriving DecidableEq, Repr

/-- All flag bits clear (the "default flags" of the claims). -/
def defaultFlags : GUriParseFlags :=
  ⟨false, false, false, false, false, false, false, false⟩

/-- `G_URI_PARSE_STRICT` alone, as passed by `parse_host` to `uri_decode`. -/
def strictOnlyFlags : GUriParseFlags :=
  ⟨true, false, false, false, false, false, false, false⟩

/-- The `GUriError` codes used by `guri.c`. -/
inductive GUriError where
  | misc | badHost | badPort | badUser | badPassword | badAuthParams
  | badPath | badQuery | badFragment
deriving DecidableEq, Repr

instance {α β : Type} [DecidableEq α] [DecidableEq β] : DecidableEq (Except α β) :=
  fun x y =>
    match x, y with
    | Except.ok a, Except.ok b =>
      if h : a = b then isTrue (congrArg Except.ok h)
      else isFalse (fun hh => h (Except.ok.inj hh))
    | Except.error a, Except.error b =>
      if h : a = b then isTrue (congrArg Except.error h)
      else isFalse (fun hh => h (Except.error.inj hh))
    | Except.ok _, Except.error _ => isFalse (fun hh => Except.noConfusion hh)
    | Except.error _, Except.ok _ => isFalse (fun hh => Except.noConfusion hh)

/-- Modelled from the spec: `g_uri_char_is_unreserved` is glib code that is
not under `src/`; spec §4.1 classifies "unreserved" as ALPHA / DIGIT /
`-._~` (bytes 45, 46, 95, 126). -/
def gUriCharIsUnreserved (c : Nat) : Bool :=
  gAsciiIsAlnum c || c == 45 || c == 46 || c == 95 || c == 126

/-- `g_ascii_isxdigit`: ASCII hexadecimal digits. -/
def gAsciiIsXdigit (c : Nat) : Bool :=
  (48 ≤ c && c ≤ 57) || (65 ≤ c && c ≤ 70) || (97 ≤ c && c ≤ 102)

/-- The `XDIGIT` macro: `(c) <= '9' ? (c) - '0' : ((c) & 0x4F) - 'A' + 10`
(only applied to bytes satisfying `gAsciiIsXdigit`). -/
def xdigitVal (c : Nat) : Nat :=
  if c ≤ 57 then c - 48 else ((c &&& 0x4F) - 65) + 10

/-- A UTF-8 continuation byte (`10xxxxxx`). -/
def utf8Cont (c : Nat) : Bool := 128 ≤ c && c ≤ 191

/-- Modelled from the spec: `g_utf8_validate` is glib code not under `src/`;
spec §4.1 says decoded output is validated "as UTF-8".  This is RFC 3629
validation: no overlong forms, no surrogates, code points at most U+10FFFF. -/
def utf8Valid : Bytes → Bool
  | [] => true
  | c :: r =>
    if c < 128 then utf8Valid r
    else if 194 ≤ c && c ≤ 223 then
      match r with
      | c1 :: r1 => utf8Cont c1 && utf8Valid r1
      | [] => false
    else if 224 ≤ c && c ≤ 239 then
      match r with
      | c1 :: c2 :: r2 =>
        (if c == 224 then 160 ≤ c1 && c1 ≤ 191
         else if c == 237 then 128 ≤ c1 && c1 ≤ 159
         else utf8Cont c1) && utf8Cont c2 && utf8Valid r2
      | _ => false
    else if 240 ≤ c && c ≤ 244 then
      match r with
      | c1 :: c2 :: c3 :: r3 =>
        (if c == 240 then 144 ≤ c1 && c1 ≤ 191
         else if c == 244 then 128 ≤ c1 && c1 ≤ 143
         else utf8Cont c1) && utf8Cont c2 && utf8Cont c3 && utf8Valid r3
      | _ => false
    else false

/-- The byte sequence appended by
`g_string_append_printf (tmp, "%%%02d", *invalid)` in `uri_decoder`: a `'%'`
followed by the byte value printed in DECIMAL, zero-padded to two digits
(this is the `%02d` in the source, not `%02X`). -/
def pctDecimal (b : Nat) : Bytes :=
  let ds := (Nat.toDigits 10 b).map Char.toNat
  if b < 10 then 37 :: 48 :: ds else 37 :: ds

/-- The invalid-UTF-8 re-encoding loop of `uri_decoder` (guri.c lines
193-206), with an explicit fuel: repeatedly copy the longest valid UTF-8
run, then replace the first byte of the first invalid sequence by
`pctDecimal` of its value and resume validation right after that byte.
Every step consumes at least one input byte and one unit of fuel, so a fuel
equal to the input length never runs out. -/
def reencodeLoop : Nat → Bytes → Bytes
  | _, [] => []
  | 0, l => l
  | fuel + 1, c :: r =>
    if c < 128 then c :: reencodeLoop fuel r
    else if 194 ≤ c && c ≤ 223 then
      match r with
      | c1 :: r1 =>
        if utf8Cont c1 then c :: c1 :: reencodeLoop fuel r1
        else pctDecimal c ++ reencodeLoop fuel r
      | [] => pctDecimal c
    else if 224 ≤ c && c ≤ 239 then
      match r with
      | c1 :: c2 :: r2 =>
        if ((if c == 224 then 160 ≤ c1 && c1 ≤ 191
             else if c == 237 then 128 ≤ c1 && c1 ≤ 159
             else utf8Cont c1) && utf8Cont c2) then
          c :: c1 :: c2 :: reencodeLoop fuel r2
        else pctDecimal c ++ reencodeLoop fuel r
      | _ => pctDecimal c ++ reencodeLoop fuel r
    else if 240 ≤ c && c ≤ 244 then
      match r with
      | c1 :: c2 :: c3 :: r3 =>
        if ((if c == 240 then 144 ≤ c1 && c1 ≤ 191
             else if c == 244 then 128 ≤ c1 && c1 ≤ 143
             else utf8Cont c1) && utf8Cont c2 && utf8Cont c3) then
          c :: c1 :: c2 :: c3 :: reencodeLoop fuel r3
        else pctDecimal c ++ reencodeLoop fuel r
      | _ => pctDecimal c ++ reencodeLoop fuel r
    else pctDecimal c ++ reencodeLoop fuel r

/-- Re-encode the bytes of every invalid UTF-8 sequence in `l`. -/
def reencodeInvalid (l : Bytes) : Bytes := reencodeLoop l.length l

/-- The main scanning loop of `uri_decoder` (guri.c lines 139-177).  On `'%'`
followed by two hex digits it either decodes (`*d++ = c; s += 2`) or, in
normalize mode when the byte is not unreserved, leaves the escape in place
(`*d++ = '%'`, the two hex digits then being copied as ordinary bytes).  On
`'%'` not followed by two hex digits it fails in strict mode and passes the
`'%'` through otherwise. -/
def decodeLoop (strict justNorm : Bool) (err : GUriError) :
    Nat → Bytes → Except GUriError Bytes
  | _, [] => pure []
  | 0, l => pure l
  | fuel + 1, c :: r =>
    if c == 37 then
      match r with
      | h1 :: h2 :: r2 =>
        if gAsciiIsXdigit h1 && gAsciiIsXdigit h2 then
          let v := ((xdigitVal h1) <<< 4) + xdigitVal h2
          if justNorm && !gUriCharIsUnreserved v then
            (fun d => 37 :: d) <$> decodeLoop strict justNorm err fuel r
          else
            (fun d => v :: d) <$> decodeLoop strict justNorm err fuel r2
        else if strict then .error err
        else (fun d => 37 :: d) <$> decodeLoop strict justNorm err fuel r
      | _ =>
        -- fewer than two bytes after the '%': s[1] or s[2] is the final
        -- NUL, which is not a hex digit
        if strict then .error err
        else (fun d => 37 :: d) <$> decodeLoop strict justNorm err fuel r
    else (fun d => c :: d) <$> decodeLoop strict justNorm err fuel r

/-- Shallow embedding of `uri_decoder` (guri.c lines 124-210): percent-decode
or percent-normalize `part`, then validate the result as UTF-8; on invalid
UTF-8 fail if `UTF8_ONLY` is set, otherwise re-encode the invalid bytes with
`pctDecimal`. -/
def uri_decoder (part : Bytes) (justNormalize : Bool) (flags : GUriParseFlags)
    (parseError : GUriError) : Except GUriError Bytes := do
  let justNorm := if flags.decoded then false else justNormalize
  let decoded ← decodeLoop flags.strict justNorm parseError part.length part
  if utf8Valid decoded then
    pure decoded
  else if flags.utf8Only then
    Except.error parseError
  else
    pure (reencodeInvalid decoded)

/-- `uri_decode`: full decoding. -/
def uri_decode (part : Bytes) (flags : GUriParseFlags) (parseError : GUriError) :
    Except GUriError Bytes :=
  uri_decoder part false flags parseError

/-- `uri_normalize`: decode only unreserved escapes. -/
def uri_normalize (part : Bytes) (flags : GUriParseFlags) (parseError : GUriError) :
    Except GUriError Bytes :=
  uri_decoder part true flags parseError

/-- `g_ascii_isdigit`. -/
def gAsciiIsDigit (c : Nat) : Bool := 48 ≤ c && c ≤ 57

/-- Numeric value of a string of decimal digit bytes. -/
def digitsVal (l : Bytes) : Nat := l.foldl (fun a c => a * 10 + (c - 48)) 0

/-- Split a byte string on a separator byte (keeping empty pieces). -/
def splitOnByte (sep : Nat) : Bytes → List Bytes
  | [] => [[]]
  | c :: r =>
    let rest := splitOnByte sep r
    if c == sep then [] :: rest
    else
      match rest with
      | g :: gs => (c :: g) :: gs
      | [] => [[c]]

/-- RFC 3986 `dec-octet`: one to three decimal digits, value at most 255, no
leading zero except for `"0"` itself. -/
def isDecOctet (l : Bytes) : Bool :=
  !l.isEmpty && l.length ≤ 3 && l.all gAsciiIsDigit && digitsVal l ≤ 255 &&
    (l.head? != some 48 || l.length == 1)

/-- Dotted-quad IPv4 address. -/
def isIPv4 (l : Bytes) : Bool :=
  match splitOnByte 46 l with
  | [a, b, c, d] => isDecOctet a && isDecOctet b && isDecOctet c && isDecOctet d
  | _ => false

/-- One to four hexadecimal digits (an IPv6 group). -/
def isHexGroup (g : Bytes) : Bool :=
  !g.isEmpty && g.length ≤ 4 && g.all gAsciiIsXdigit

/-- Number of 16-bit groups contributed by a colon-separated group list whose
final element may be an embedded IPv4 address (counting for two groups);
`none` if some element is neither. -/
def groupsCount : List Bytes → Option Nat
  | [] => some 0
  | [g] => if isHexGroup g then some 1 else if isIPv4 g then some 2 else none
  | g :: rest => if isHexGroup g then (groupsCount rest).map (· + 1) else none

/-- Position of the first `"::"`. -/
def firstDoubleColon : Bytes → Option Nat
  | 58 :: 58 :: _ => some 0
  | _ :: r => (firstDoubleColon r).map (· + 1)
  | [] => none

/-- Textual IPv6 address: eight hex groups separated by colons, or fewer with
a single `"::"` elision, the last group optionally an embedded IPv4 address. -/
def isIPv6 (l : Bytes) : Bool :=
  match firstDoubleColon l with
  | none =>
    let gs := splitOnByte 58 l
    gs.all (fun g => !g.isEmpty) && groupsCount gs == some 8
  | some i =>
    let left := l.take i
    let right := l.drop (i + 2)
    (firstDoubleColon right).isNone &&
    (left.isEmpty ||
      (splitOnByte 58 left).all (fun g => isHexGroup g)) &&
    (right.isEmpty ||
      ((splitOnByte 58 right).all (fun g => !g.isEmpty) &&
        (groupsCount (splitOnByte 58 right)).isSome)) &&
    ((if left.isEmpty then 0 else (splitOnByte 58 left).length) +
      (if right.isEmpty then 0 else (groupsCount (splitOnByte 58 right)).getD 0)
      ≤ 7)

/-- Modelled from the spec: `g_hostname_is_ip_address` is glib code not under
`src/`; spec §4.3 refers to "the IP-address grammar" (a bare IPv4 or IPv6
textual address). -/
def gHostnameIsIpAddress (l : Bytes) : Bool := isIPv4 l || isIPv6 l

/-- Modelled from the spec: `g_hostname_is_non_ascii` is glib code not under
`src/`; spec §4.3: "the decoded text contains non-ASCII characters". -/
def gHostnameIsNonAscii (l : Bytes) : Bool := l.any (fun c => 128 ≤ c)

/-- Modelled from the spec: `g_hostname_to_ascii` (IDNA ToASCII) is glib code
not under `src/` and the spec gives no algorithm for it ("apply IDNA-style
ToASCII conversion"); no claim depends on its output, so it is modelled as
the identity on the decoded host. -/
def gHostnameToAscii (l : Bytes) : Bytes := l

/-- Shallow embedding of `parse_host` (guri.c lines 320-412): bracketed
IP-literals must contain a colon-bearing IP address; a textual IP address is
taken as-is; otherwise the host is percent-decoded (strictly, unless
`NON_DNS`), must not decode to an IP address, must be `%`-free valid UTF-8,
and non-ASCII hosts are IDNA-converted unless `NO_IRI` forbids them. -/
def parse_host (raw_host : Bytes) (flags : GUriParseFlags) :
    Except GUriError Bytes :=
  if raw_host.head? == some 91 then
    if raw_host.getLast? != some 93 then Except.error .badHost
    else
      let addr := (raw_host.drop 1).dropLast
      if !gHostnameIsIpAddress addr || !addr.contains 58 then
        Except.error .badHost
      else Except.ok addr
  else if gHostnameIsIpAddress raw_host then Except.ok raw_host
  else do
    let decoded ← uri_decode raw_host
      (if flags.nonDns then flags else strictOnlyFlags) .badHost
    if flags.nonDns then pure decoded
    else if gHostnameIsIpAddress decoded then Except.error .badHost
    else if decoded.contains 37 || !utf8Valid decoded then Except.error .badHost
    else if !gHostnameIsNonAscii decoded then pure decoded
    else if flags.noIri then Except.error .badHost
    else pure (gHostnameToAscii decoded)

/-- Modelled from the spec: `g_ascii_isspace` is glib code not under `src/`;
it is C-locale whitespace: space, `\t`, `\n`, `\v`, `\f`, `\r`
(bytes 32 and 9-13). -/
def gAsciiIsSpace (c : Nat) : Bool := c == 32 || (9 ≤ c && c ≤ 13)

/-- The `strpbrk (uri_string, " \t\n\r")` test of `g_uri_new_relative`
(guri.c line 569): does the string contain a space, tab, LF or CR?
Note the set here is strictly smaller than `gAsciiIsSpace` (no `\f`, `\v`). -/
def strpbrkSpace (s : Bytes) : Bool :=
  s.any (fun c => c == 32 || c == 9 || c == 10 || c == 13)

/-- The copy loop of `uri_cleanup` (guri.c lines 305-315): encode unencoded
spaces as `"%20"` and strip other whitespace. -/
def cleanupCopy : Bytes → Bytes
  | [] => []
  | c :: r =>
    if c == 32 then 37 :: 50 :: 48 :: cleanupCopy r
    else if gAsciiIsSpace c then cleanupCopy r
    else c :: cleanupCopy r

/-- Shallow embedding of `uri_cleanup` (guri.c lines 289-318): skip leading
whitespace, ignore trailing whitespace, then copy the rest through
`cleanupCopy`. -/
def uri_cleanup (s : Bytes) : Bytes :=
  cleanupCopy (((s.dropWhile gAsciiIsSpace).reverse.dropWhile gAsciiIsSpace).reverse)

/-- The sign handling of `strtoul`: one optional `'+'` or `'-'`.
Returns (negative, rest). -/
def signSplit : Bytes → Bool × Bytes
  | 43 :: r => (false, r)
  | 45 :: r => (true, r)
  | r => (false, r)

/-- Modelled after C `strtoul (raw, &end, 10)` as called by `parse_port`:
skip leading C whitespace, accept an optional single `'+'` or `'-'`, consume
decimal digits.  Returns the unsigned-long value (clamped to `ULONG_MAX` on
overflow, negated modulo 2^64 under a minus sign) and the suffix at `end`
(`end` is reset to the start of the string when no digits were consumed). -/
def strtoul10 (s : Bytes) : Nat × Bytes :=
  let sg := signSplit (s.dropWhile gAsciiIsSpace)
  let ds := sg.2.takeWhile gAsciiIsDigit
  if ds.isEmpty then (0, s)
  else
    let n := digitsVal ds
    let n2 := if n > 2 ^ 64 - 1 then 2 ^ 64 - 1 else n
    let v := if sg.1 then (2 ^ 64 - n2) % 2 ^ 64 else n2
    (v, sg.2.dropWhile gAsciiIsDigit)

/-- Conversion of the `unsigned long` result of `strtoul` to the C `int`
local `parsed_port` (two's-complement truncation to 32 bits, as on every
platform glib targets). -/
def intOfULong (v : Nat) : Int :=
  let m : Nat := v % 2 ^ 32
  (m : Int) - (if 2 ^ 31 ≤ m then ((2 ^ 32 : Nat) : Int) else 0)

/-- Shallow embedding of `parse_port` (guri.c lines 414-440): run `strtoul`
base 10 on the raw text; `BadPort` if anything follows the consumed prefix
(`*end` nonzero) or if the value, converted to a C `int`, exceeds 65535;
otherwise store the `int` as a `gushort` (reduction modulo 2^16). -/
def parse_port (raw_port : Bytes) : Except GUriError Nat :=
  let vr := strtoul10 raw_port
  if !vr.2.isEmpty then Except.error .badPort
  else
    let iv := intOfULong vr.1
    if iv > 65535 then Except.error .badPort
    else Except.ok (iv % (2 ^ 16 : Int)).toNat

/-- Shallow embedding of `parse_userinfo` (guri.c lines 442-512): split the
raw userinfo at the first `':'` and/or `';'` according to the `PASSWORD` and
`AUTH_PARAMS` flags, percent-decoding each part.  Returns
(user, password, auth_params). -/
def parse_userinfo (raw : Bytes) (flags : GUriParseFlags) :
    Except GUriError (Bytes × Option Bytes × Option Bytes) := do
  let stop1 : Nat → Bool :=
    if flags.password && flags.authParams then fun c => c == 58 || c == 59
    else if flags.password then fun c => c == 58
    else if flags.authParams then fun c => c == 59
    else fun _ => false
  let e1 := firstIdxOrLen stop1 raw
  let user ← uri_decode (raw.take e1) flags .badUser
  match raw.drop e1 with
  | 58 :: rest =>
    let e2 := if flags.authParams then firstIdxOrLen (fun c => c == 59) rest
              else rest.length
    let password ← uri_decode (rest.take e2) flags .badPassword
    match rest.drop e2 with
    | 59 :: rest2 =>
      let params ← uri_decode rest2 flags .badAuthParams
      pure (user, some password, some params)
    | _ => pure (user, some password, none)
  | 59 :: rest =>
    let params ← uri_decode rest flags .badAuthParams
    pure (user, none, some params)
  | _ => pure (user, none, none)

/-- Index of the last byte satisfying `p` (models `strrchr`). -/
def lastIdxP (p : Nat → Bool) (l : Bytes) : Option Nat :=
  match firstIdxP p l.reverse with
  | some j => some (l.length - 1 - j)
  | none => none

/-- Phase 1 of `remove_dot_segments` (guri.c lines 238-246): remove `"./"`
where the `"."` is a complete segment.  `prev` models `*(p - 1)`, the
argument list models the suffix at `p`; on a removal the scan stays at the
same position.  Each step consumes input, so fuel = length suffices. -/
def rdsDotSlash : Nat → Nat → Bytes → Bytes
  | _, _, [] => []
  | 0, _, l => l
  | fuel + 1, prev, c :: r =>
    match r with
    | s :: r2 =>
      if prev == 47 && c == 46 && s == 47 then rdsDotSlash fuel prev r2
      else c :: rdsDotSlash fuel c (s :: r2)
    | [] => [c]

/-- Phase 2 (guri.c lines 247-250): remove a `"."` at the end, provided the
string is longer than two bytes and the `"."` follows a `'/'`. -/
def rdsTrailingDot (s : Bytes) : Bytes :=
  if 2 < s.length && s.getLast? == some 46 && s.dropLast.getLast? == some 47
  then s.dropLast else s

/-- One scan of the `"<segment>/../"` loop body (guri.c lines 253-270):
`pre` holds the bytes already scanned past (beginning with `path[0]`), `cur`
is the suffix at `p`.  Skips complete `"../"` segments, walks to the next
`'/'`, and on finding `"/../"` there returns the shortened string; `none`
when the scan finishes without a removal.  Every step consumes at least two
bytes of `cur`. -/
def rdsScanSegUp : Nat → Bytes → Bytes → Option Bytes
  | 0, _, _ => none
  | fuel + 1, pre, cur =>
    if cur.take 3 = [46, 46, 47] then
      rdsScanSegUp fuel (pre ++ cur.take 3) (cur.drop 3)
    else
      match firstIdxP (fun c => c == 47) (cur.drop 1) with
      | none => none
      | some j =>
        let q := 1 + j
        if (cur.drop q).take 4 = [47, 46, 46, 47] then
          some (pre ++ cur.drop (q + 4))
        else rdsScanSegUp fuel (pre ++ cur.take (q + 1)) (cur.drop (q + 1))

/-- The restart loop around `rdsScanSegUp`: after each removal the C code
sets `p = path + 1` and scans again.  Every removal deletes at least five
bytes, so fuel = length + 1 suffices. -/
def rdsSegUpLoop : Nat → Bytes → Bytes
  | 0, s => s
  | fuel + 1, s =>
    match s with
    | [] => []
    | c :: r =>
      match rdsScanSegUp (r.length + 1) [c] r with
      | some s2 => rdsSegUpLoop fuel s2
      | none => s

/-- The backward scan of phase 4 (`while (p > path && *p != '/') p--`):
largest index `j ≤ i` with `s[j] = '/'`, or 0. -/
def backSlashScan (s : Bytes) : Nat → Nat
  | 0 => 0
  | i + 1 => if s.getD (i + 1) 0 == 47 then i + 1 else backSlashScan s i

/-- Phase 4 (guri.c lines 271-280): remove a trailing `"<segment>/.."` whose
segment is not itself `".."`. -/
def rdsTrailingSegUp (s : Bytes) : Bytes :=
  match lastIdxP (fun c => c == 47) s with
  | none => s
  | some qi =>
    if s.drop qi = [47, 46, 46] then
      if qi = 0 then
        -- Here the C code sets p = q - 1 = path - 1; the backward scan stops
        -- immediately and the four-byte comparison at p cannot match "/../"
        -- (whatever the out-of-bounds byte is, the byte after it is
        -- path[0] = '/', not '.'), so *(p + 1) — that is, path[0] — is set
        -- to NUL and the string becomes empty.
        []
      else
        let pi := backSlashScan s (qi - 1)
        if (s.drop pi).take 4 = [47, 46, 46, 47] then s
        else s.take (pi + 1)
    else s

/-- Phase 5 (guri.c lines 282-286): drop extraneous initial `"/.."`s. -/
def rdsLeadingUp : Nat → Bytes → Bytes
  | 0, s => s
  | fuel + 1, s =>
    if s.take 4 = [47, 46, 46, 47] then rdsLeadingUp fuel (s.drop 3) else s

/-- Shallow embedding of `remove_dot_segments` (guri.c lines 233-287), the
five textual phases run in order.  The C code assumes a path starting with
`'/'` but is also invoked on other paths; an empty path makes it read past
the buffer, which no caller in this development does. -/
def remove_dot_segments (path : Bytes) : Bytes :=
  match path with
  | [] => []
  | c :: r =>
    let s1 := c :: rdsDotSlash r.length c r
    let s2 := rdsTrailingDot s1
    let s3 := rdsSegUpLoop (s2.length + 1) s2
    let s4 := rdsTrailingSegUp s3
    let s5 := rdsLeadingUp (s4.length + 1) s4
    if s5 = [47, 46, 46] then [47] else s5

/-- The parsed `GUri` record.  `struct _GUri` itself is not among the sources;
its nine decoded fields are those read and written by `g_uri_copy` /
`g_uri_free` / the accessors, and the `encoded_*` fields are those referenced
by `g_uri_to_string` and the `encoded` accessors declared in `guri.h` (no
code in the sources ever assigns them). -/
structure GUri where
  scheme : Option Bytes
  user : Option Bytes
  password : Option Bytes
  auth_params : Option Bytes
  host : Option Bytes
  port : Nat
  path : Bytes
  query : Option Bytes
  fragment : Option Bytes
  encoded_userinfo : Option Bytes
  encoded_host : Option Bytes
  encoded_path : Option Bytes
  encoded_query : Option Bytes
  encoded_fragment : Option Bytes
deriving DecidableEq, Repr

/-- `g_slice_new0 (GUri)`: everything zeroed. -/
def GUri.new0 : GUri :=
  ⟨none, none, none, none, none, 0, [], none, none, none, none, none, none, none⟩

/-- `g_ascii_strdown`: ASCII-lowercase every byte. -/
def gAsciiStrdown (l : Bytes) : Bytes :=
  l.map (fun c => if 65 ≤ c && c ≤ 90 then c + 32 else c)

/-- Shallow embedding of `g_uri_new_relative` (guri.c lines 550-706): clean
the string in lenient mode when it contains `" \t\n\r"` bytes, split it,
normalize every component, and merge with the base URI per the code's
rendition of RFC 3986 §5.2.2. -/
def g_uri_new_relative (base_uri : Option GUri) (uri_string : Bytes)
    (flags : GUriParseFlags) : Except GUriError GUri :=
  if (base_uri.map (fun b => b.scheme == none)).getD false then
    Except.error .misc
  else do
    let input := if !flags.strict && strpbrkSpace uri_string
                 then uri_cleanup uri_string else uri_string
    let raw := g_uri_split input flags.strict
    let scheme : Option Bytes ← match raw.scheme with
      | some sch => pure (some (gAsciiStrdown sch))
      | none =>
        if base_uri.isNone then Except.error GUriError.misc
        else pure none
    let upa : Option Bytes × Option Bytes × Option Bytes ←
      match raw.userinfo with
      | some ui => (fun uua : Bytes × Option Bytes × Option Bytes =>
          (some uua.1, uua.2.1, uua.2.2)) <$> parse_userinfo ui flags
      | none => pure (none, none, none)
    let host : Option Bytes ← match raw.host with
      | some h => some <$> parse_host h flags
      | none => pure none
    let port : Nat ← match raw.port with
      | some p => parse_port p
      | none => pure 0
    let path0 ← uri_normalize (raw.path.getD []) flags .badPath
    let query : Option Bytes ← match raw.query with
      | some q => some <$> uri_normalize q flags .badQuery
      | none => pure none
    let fragment : Option Bytes ← match raw.fragment with
      | some f => some <$> uri_normalize f flags .badFragment
      | none => pure none
    if scheme.isNone && base_uri.isNone then Except.error .misc
    else
      let uri : GUri :=
        { scheme := scheme, user := upa.1, password := upa.2.1,
          auth_params := upa.2.2, host := host, port := port, path := path0,
          query := query, fragment := fragment, encoded_userinfo := none,
          encoded_host := none, encoded_path := none, encoded_query := none,
          encoded_fragment := none }
      match base_uri with
      | none => pure uri
      | some b =>
        -- "This is section 5.2.2 of RFC 3986, except that we're doing it in
        -- place" (guri.c lines 638-695)
        if uri.scheme.isSome then
          pure { uri with path := remove_dot_segments uri.path }
        else if uri.host.isSome then
          pure { uri with path := remove_dot_segments uri.path }
        else if uri.path.isEmpty then
          pure { uri with
            path := b.path,
            query := if uri.query.isNone then b.query else uri.query,
            user := b.user, password := b.password,
            auth_params := b.auth_params, host := b.host, port := b.port }
        else if uri.path.head? != some 47 then
          pure { uri with
            path := remove_dot_segments uri.path,
            user := b.user, password := b.password,
            auth_params := b.auth_params, host := b.host, port := b.port }
        else
          let newpath :=
            match lastIdxP (fun c => c == 47) b.path with
            | some li => b.path.take li ++ 47 :: uri.path
            | none => 47 :: uri.path
          pure { uri with
            path := remove_dot_segments newpath,
            user := b.user, password := b.password,
            auth_params := b.auth_params, host := b.host, port := b.port }

/-- `g_uri_new` (guri.c lines 527-533): parse an absolute URI. -/
def g_uri_new (uri_string : Bytes) (flags : GUriParseFlags) :
    Except GUriError GUri :=
  g_uri_new_relative none uri_string flags

/-- Decimal digits of `n` (the `"%d"` of `g_string_append_printf`). -/
def decimalBytes (n : Nat) : Bytes := (Nat.toDigits 10 n).map Char.toNat

/-- Shallow embedding of `g_uri_to_string` (guri.c lines 719-761).  As
written that function does not compile: it reads `GUri` fields
`encoded_userinfo`, `encoded_host`, `encoded_path`, `encoded_query`,
`encoded_fragment` that no code in the sources defines or ever assigns, and
an undeclared identifier `raw_host` (the corresponding draft among the
unnamed sources reads `uri->raw_host` at the same spot).  We model the
encoded fields as `GUri` members that stay `none` on every parse path and
read `raw_host` as the `encoded_host` field, following that draft.  The
`GUriToStringFlags` argument is ignored by the C body and is omitted. -/
def g_uri_to_string (uri : GUri) : Bytes :=
  let str := uri.scheme.getD [] ++ [58]
  let str :=
    match uri.host with
    | some _ =>
      let str := str ++ [47, 47]
      let str :=
        match uri.encoded_userinfo with
        | some eu => str ++ eu ++ [64]
        | none => str
      let str :=
        match uri.encoded_host with
        | some eh => str ++ eh
        | none => str
      if uri.port ≠ 0 then str ++ 58 :: decimalBytes uri.port else str
    | none => str
  let str := match uri.encoded_path with
    | some p => str ++ p
    | none => str
  let str := match uri.encoded_query with
    | some q => str ++ 63 :: q
    | none => str
  match uri.encoded_fragment with
  | some f => str ++ 35 :: f
  | none => str

/-- Key equality used by the params hash table: `g_str_equal`, or
`g_ascii_strcasecmp == 0` when case-insensitive. -/
def paramsKeyEq (caseIns : Bool) (a b : Bytes) : Bool :=
  if caseIns then gAsciiStrdown a == gAsciiStrdown b else a == b

/-- `g_hash_table_insert` on the association-list model of `GHashTable`:
replace the value when the key is already present (the old key is kept),
append otherwise. -/
def tableInsert (eq : Bytes → Bytes → Bool) (k v : Bytes) :
    List (Bytes × Bytes) → List (Bytes × Bytes)
  | [] => [(k, v)]
  | (k0, v0) :: rest =>
    if eq k0 k then (k0, v) :: rest
    else (k0, v0) :: tableInsert eq k v rest

/-- `g_hash_table_lookup` on the association-list model. -/
def tableLookup (eq : Bytes → Bytes → Bool) (k : Bytes) :
    List (Bytes × Bytes) → Option Bytes
  | [] => none
  | (k0, v0) :: rest => if eq k0 k then some v0 else tableLookup eq k rest

/-- The `while (attr < end)` loop of `g_uri_parse_params` (guri.c lines
1067-1102): cut the next separator-delimited piece, fail (returning `none`,
the model of destroying the table and returning NULL) when it has no `'='`,
percent-decode attribute and value with flags 0, insert, and move past the
separator.  Each iteration consumes at least one byte, so fuel = length
suffices. -/
def parseParamsLoop (sep : Nat) (caseIns : Bool) :
    Nat → Bytes → List (Bytes × Bytes) → Option (List (Bytes × Bytes))
  | _, [], hash => some hash
  | 0, _, hash => some hash
  | fuel + 1, rem, hash =>
    let valueEnd := firstIdxOrLen (fun c => c == sep) rem
    let seg := rem.take valueEnd
    match firstIdxP (fun c => c == 61) seg with
    | none => none
    | some ae =>
      match uri_decode (seg.take ae) defaultFlags .misc,
            uri_decode (seg.drop (ae + 1)) defaultFlags .misc with
      | .ok da, .ok dv =>
        parseParamsLoop sep caseIns fuel (rem.drop (valueEnd + 1))
          (tableInsert (paramsKeyEq caseIns) da dv hash)
      | _, _ => none

/-- Shallow embedding of `g_uri_parse_params` (guri.c lines 1040-1105).
`length = -1` means the whole NUL-terminated string. -/
def g_uri_parse_params (params : Bytes) (length : Int) (separator : Nat)
    (case_insensitive : Bool) : Option (List (Bytes × Bytes)) :=
  let effective := if length = -1 then params else params.take length.toNat
  parseParamsLoop separator case_insensitive (effective.length + 1) effective []

/-- The amended C4 acceptance grammar for `parse_port`, stated apart from
the implementation: the empty string, or optional leading C whitespace, an
optional single `'+'` or `'-'`, and one or more decimal digits running to
the end of the string. -/
def portTextOk (s : Bytes) : Bool :=
  s.isEmpty ||
    (let r2 := (signSplit (s.dropWhile gAsciiIsSpace)).2
     !r2.isEmpty && r2.all gAsciiIsDigit)

/-- The amended C10 cleanup description, stated apart from `uri_cleanup`:
trim `gAsciiIsSpace` bytes at both ends, then replace each space by `"%20"`
and delete the other whitespace bytes. -/
def cleanupSpec (s : Bytes) : Bytes :=
  (((s.dropWhile gAsciiIsSpace).reverse.dropWhile gAsciiIsSpace).reverse).flatMap
    (fun c => if c = 32 then [37, 50, 48]
              else if gAsciiIsSpace c then [] else [c])

/-- The separator-delimited pieces processed by the `g_uri_parse_params`
loop, in order (a trailing separator does not contribute an extra empty
piece, matching `attr = value_end + 1` against `attr < end`). -/
def paramSegs (sep : Nat) : Nat → Bytes → List Bytes
  | _, [] => []
  | 0, _ => []
  | fuel + 1, rem =>
    let ve := firstIdxOrLen (fun c => c == sep) rem
    rem.take ve :: paramSegs sep fuel (rem.drop (ve + 1))

/-- Total percent-decoding with all flags clear (with flags 0 the decoder
can never fail; `uri_decode_default_ok` below proves the agreement). -/
def uriDecodeTotal (l : Bytes) : Bytes :=
  ((uri_decode l defaultFlags .misc).toOption).getD []

/-- The decoded (attribute, value) pair of one params piece. -/
def decodeSeg (seg : Bytes) : Bytes × Bytes :=
  match firstIdxP (fun c => c == 61) seg with
  | some i => (uriDecodeTotal (seg.take i), uriDecodeTotal (seg.drop (i + 1)))
  | none => ([], [])

/-- First-some choice on options (spelled out to avoid thunked `orElse`). -/
def oOr (a b : Option Bytes) : Option Bytes :=
  match a with
  | some v => some v
  | none => b

/-- "Last occurrence wins" lookup over an ordered pair list: the value of
the last pair whose key equals `k`. -/
def lastWins (eq : Bytes → Bytes → Bool) (prs : List (Bytes × Bytes))
    (k : Bytes) : Option Bytes :=
  tableLookup eq k prs.reverse

/-! ## Claim theorems -/

/-- C1 (code bug): the reference-resolution branch of `g_uri_new_relative`
has its `'/'` test inverted with respect to RFC 3986 §5.2.2, which the code's
own comment cites: a relative path NOT starting with `'/'` is only
dot-normalized in place instead of being merged onto the base path.  Against
base `http://a/b/c/d;p?q` (whose parsed path is `/b/c/d;p`), resolving `g`
yields path `g` — not `/b/c/g` as the claim states — and resolving
`../../../g` yields `.../g` (bytes 46,46,46,47,103) — not `/g`. -/
theorem guri_c1_merge_slash_test_inverted :
    (g_uri_new (bytesOf "http://a/b/c/d;p?q") defaultFlags).toOption.map
        GUri.path = some (bytesOf "/b/c/d;p")
    ∧ ((g_uri_new (bytesOf "http://a/b/c/d;p?q") defaultFlags).toOption.bind
        (fun b => (g_uri_new_relative (some b) (bytesOf "g")
          defaultFlags).toOption)).map GUri.path = some (bytesOf "g")
    ∧ ((g_uri_new (bytesOf "http://a/b/c/d;p?q") defaultFlags).toOption.bind
        (fun b => (g_uri_new_relative (some b) (bytesOf "../../../g")
          defaultFlags).toOption)).map GUri.path = some (bytesOf ".../g")
    ∧ bytesOf "g" ≠ bytesOf "/b/c/g"
    ∧ bytesOf ".../g" ≠ bytesOf "/g" := by
  refine ⟨by decide, by decide, by decide, by decide, by decide⟩

/-- C2 (code bug): `g_uri_to_string` reads `GUri` fields that nothing ever
assigns (and an undeclared `raw_host`), so for `http://h/p?q` — parsed with
default flags into host `h`, path `/p`, query `q` — it produces just
`http://`, and re-parsing that yields host `""`, path `""` and no query:
the round-trip claim fails on every component except the scheme. -/
theorem guri_c2_to_string_roundtrip_broken :
    (g_uri_new (bytesOf "http://h/p?q") defaultFlags).toOption.map
        (fun u => (u.host, u.path, u.query))
      = some (some (bytesOf "h"), bytesOf "/p", some (bytesOf "q"))
    ∧ (g_uri_new (bytesOf "http://h/p?q") defaultFlags).toOption.map
        g_uri_to_string = some (bytesOf "http://")
    ∧ ((g_uri_new (bytesOf "http://h/p?q") defaultFlags).toOption.bind
        (fun u => (g_uri_new (g_uri_to_string u) defaultFlags).toOption)).map
        (fun u2 => (u2.host, u2.path, u2.query))
      = some (some [], [], none)
    ∧ (some (bytesOf "h") : Option Bytes) ≠ some []
    ∧ bytesOf "/p" ≠ [] := by
  refine ⟨by decide, by decide, by decide, by decide, by decide⟩

/-- C3 (confirmed): `g_uri_split` is a total function — the embedding is a
plain total Lean definition over every byte string and both strictness
settings — and the path out-parameter, initialised to `NULL` like the
others, is assigned on every control path (possibly to the empty string). -/
theorem guri_c3_split_total_path_present :
    ∀ (s : Bytes) (strict : Bool), (g_uri_split s strict).path.isSome = true :=
  fun _ _ => rfl

/-- C5 (code bug): when percent-decoding produces invalid UTF-8 and
`UTF8_ONLY` is not set, `uri_decoder` re-encodes each invalid byte with
`g_string_append_printf (tmp, "%%%02d", ...)` — DECIMAL, not the `%XX` hex
escape the claim (and the surrounding documentation, which promises the data
is "left %-encoded") requires: decoding `"%E9"` yields byte 233, which is
re-encoded as `"%233"` instead of `"%E9"`.  `"%233"` decodes to `"#3"`, so
the information is lost.  The `UTF8_ONLY` half of the claim does hold. -/
theorem guri_c5_decimal_reencoding :
    uri_decode (bytesOf "%E9") defaultFlags .badUser = .ok (bytesOf "%233")
    ∧ bytesOf "%233" ≠ bytesOf "%E9"
    ∧ uri_decode (bytesOf "%233") defaultFlags .badUser = .ok (bytesOf "#3")
    ∧ uri_decoder (bytesOf "%E9") false
        { defaultFlags with utf8Only := true } .badUser = .error .badUser
    ∧ (g_uri_new (bytesOf "http://u%E9@h/") defaultFlags).toOption.map
        GUri.user = some (some (bytesOf "u%233")) := by
  refine ⟨by decide, by decide, by decide, by decide, by decide⟩

/-- C8 counterexample: `g_uri_split` itself does NOT strip the brackets of
an IPv6 literal — the raw host it returns for
`http://[2001:db8::1]:8080/x` is `[2001:db8::1]`, not `2001:db8::1`
(the stripping happens later, in `parse_host`). -/
theorem guri_c8_split_keeps_brackets :
    (g_uri_split (bytesOf "http://[2001:db8::1]:8080/x") false).host
      = some (bytesOf "[2001:db8::1]")
    ∧ some (bytesOf "[2001:db8::1]") ≠ some (bytesOf "2001:db8::1") := by
  refine ⟨by decide, by decide⟩

/-- C8 amended: `split("http://[2001:db8::1]:8080/x")` (in both strict and
lenient modes) returns host `[2001:db8::1]` with the brackets retained,
port `8080` and path `/x`; the brackets are stripped by `parse_host`, so the
fully parsed `GUri` has host `2001:db8::1`. -/
theorem guri_c8_ipv6_split_amended :
    (∀ strict : Bool, g_uri_split (bytesOf "http://[2001:db8::1]:8080/x") strict
      = { scheme := some (bytesOf "http"), userinfo := none,
          host := some (bytesOf "[2001:db8::1]"),
          port := some (bytesOf "8080"),
          path := some (bytesOf "/x"), query := none, fragment := none })
    ∧ parse_host (bytesOf "[2001:db8::1]") defaultFlags
        = .ok (bytesOf "2001:db8::1")
    ∧ ((g_uri_new (bytesOf "http://[2001:db8::1]:8080/x")
          defaultFlags).toOption.map (fun u => (u.host, u.port, u.path)))
      = some (some (bytesOf "2001:db8::1"), 8080, bytesOf "/x") := by
  refine ⟨fun strict => by cases strict <;> decide, by decide, by decide⟩

/-- C4 counterexample: `parse_port` is implemented with bare
`strtoul (raw, &end, 10)`, which accepts an optional sign — so `"+80"`,
which is not "entirely decimal digits", is accepted with port 80 (and
`"-1"` is accepted as port 65535 through the unsigned wrap-around). -/
theorem guri_c4_plus_sign_accepted :
    parse_port (bytesOf "+80") = .ok 80
    ∧ (bytesOf "+80").all gAsciiIsDigit = false
    ∧ parse_port (bytesOf "-1") = .ok 65535 := by
  refine ⟨by decide, by decide, by decide⟩

/-- C7 counterexample: decoding `host%2E1%2E1%2E1` gives `host.1.1.1`,
which does NOT match the IP-address grammar (its first label is not a
decimal octet), so — contrary to the claim's example —
`parse("http://host%2E1%2E1%2E1/")` does not fail with BadHost: it succeeds
with host `host.1.1.1`. -/
theorem guri_c7_host_dot_example_accepted :
    uri_decode (bytesOf "host%2E1%2E1%2E1") strictOnlyFlags .badHost
      = .ok (bytesOf "host.1.1.1")
    ∧ gHostnameIsIpAddress (bytesOf "host.1.1.1") = false
    ∧ ((g_uri_new (bytesOf "http://host%2E1%2E1%2E1/")
          defaultFlags).toOption.map GUri.host)
      = some (some (bytesOf "host.1.1.1")) := by
  refine ⟨by decide, by decide, by decide⟩

/-- C10 counterexample: `g_uri_new` triggers `uri_cleanup` only when the
input contains one of `" \t\n\r"` (`strpbrk`), a strictly smaller set than
whitespace (`g_ascii_isspace`, which also holds of `\f` and `\v`).  The
input `http://h/a\x0Cb` contains the whitespace byte 12 (`\f`) but none of
the trigger bytes, so it is split unmodified and the form feed survives into
the path, where the claim requires interior non-space whitespace to be
deleted (path `/ab`). -/
theorem guri_c10_formfeed_not_cleaned :
    gAsciiIsSpace 12 = true
    ∧ strpbrkSpace (bytesOf "http://h/a\x0Cb") = false
    ∧ (g_uri_new (bytesOf "http://h/a\x0Cb") defaultFlags).toOption.map
        GUri.path = some (bytesOf "/a\x0Cb")
    ∧ bytesOf "/a\x0Cb" ≠ bytesOf "/ab" := by
  refine ⟨by decide, by decide, by decide, by decide⟩

theorem dropWhile_isEmpty_eq_all (p : Nat → Bool) (l : Bytes) :
    (l.dropWhile p).isEmpty = l.all p := by
  induction l with
  | nil => rfl
  | cons c r ih =>
    by_cases h : p c
    · simpa [List.dropWhile_cons, h] using ih
    · simp [List.dropWhile_cons, h]

theorem takeWhile_isEmpty_no_accept (p : Nat → Bool) (l : Bytes)
    (h : (l.takeWhile p).isEmpty = true) : (!l.isEmpty && l.all p) = false := by
  cases l with
  | nil => rfl
  | cons c r =>
    by_cases hc : p c
    · simp [List.takeWhile_cons, hc] at h
    · simp [hc]

theorem strtoul10_rest_isEmpty (s : Bytes) :
    (strtoul10 s).2.isEmpty = portTextOk s := by
  by_cases hds :
      ((signSplit (s.dropWhile gAsciiIsSpace)).2.takeWhile gAsciiIsDigit).isEmpty = true
  · have hno := takeWhile_isEmpty_no_accept gAsciiIsDigit _ hds
    simp [strtoul10, portTextOk, hds, hno]
  · have hsne : s.isEmpty = false := by
      cases s with
      | nil => simp [signSplit] at hds
      | cons c r => rfl
    have hr2 : (signSplit (s.dropWhile gAsciiIsSpace)).2.isEmpty = false := by
      cases hh : (signSplit (s.dropWhile gAsciiIsSpace)).2 with
      | nil => rw [hh] at hds; simp at hds
      | cons c r => rfl
    simp [strtoul10, portTextOk, hds, hsne, hr2, dropWhile_isEmpty_eq_all]

theorem parse_port_ok_iff (s : Bytes) :
    (∃ v, parse_port s = Except.ok v) ↔
      (portTextOk s = true ∧ intOfULong (strtoul10 s).1 ≤ 65535) := by
  unfold parse_port
  rw [← strtoul10_rest_isEmpty]
  by_cases h1 : (strtoul10 s).2.isEmpty = true
  · by_cases h2 : intOfULong (strtoul10 s).1 > 65535
    · simp [h1, h2]
      try omega
    · simp [h1, h2]
      try omega
  · simp [Bool.of_not_eq_true h1]

theorem parse_port_ok_val (s : Bytes) (v : Nat)
    (h : parse_port s = Except.ok v) :
    v = (intOfULong (strtoul10 s).1 % (2 ^ 16 : Int)).toNat := by
  simp only [parse_port] at h
  split_ifs at h with h1 h2
  · exact ((Except.ok.inj h)).symm

/-- C4 amended: `parse_port` accepts a raw port string iff it is empty, or
consists of optional leading C whitespace, an optional single `'+'` or `'-'`
sign, and one or more decimal digits running to the end of the string, with
the `strtoul` value converted to a C `int` at most 65535; the stored port is
that `int` reduced modulo 2^16.  In particular `"+80"` (which is not
entirely decimal digits) is accepted with port 80, parsing
`http://h:65536/` fails with BadPort, and `http://h:65535/` succeeds with
port 65535. -/
theorem guri_c4_port_strtoul_amended :
    (∀ s : Bytes, (∃ v, parse_port s = Except.ok v) ↔
      (portTextOk s = true ∧ intOfULong (strtoul10 s).1 ≤ 65535))
    ∧ (∀ (s : Bytes) (v : Nat), parse_port s = Except.ok v →
        v = (intOfULong (strtoul10 s).1 % (2 ^ 16 : Int)).toNat)
    ∧ parse_port (bytesOf "+80") = .ok 80
    ∧ g_uri_new (bytesOf "http://h:65536/") defaultFlags = .error .badPort
    ∧ (g_uri_new (bytesOf "http://h:65535/") defaultFlags).toOption.map
        GUri.port = some 65535 :=
  ⟨parse_port_ok_iff, parse_port_ok_val, by decide, by decide, by decide⟩

/-- Witness for C4: the amended theorem applied at the concrete input
`"-1"`, which the grammar accepts and which is stored as port 65535. -/
theorem guri_c4_port_strtoul_amended_witness :
    (∃ v, parse_port (bytesOf "-1") = Except.ok v)
    ∧ (65535 : Nat)
        = (intOfULong (strtoul10 (bytesOf "-1")).1 % (2 ^ 16 : Int)).toNat :=
  ⟨(guri_c4_port_strtoul_amended.1 (bytesOf "-1")).mpr (by decide),
   guri_c4_port_strtoul_amended.2.1 (bytesOf "-1") 65535 (by decide)⟩

theorem cleanupCopy_eq_flatMap (l : Bytes) :
    cleanupCopy l = l.flatMap
      (fun c => if c = 32 then [37, 50, 48]
                else if gAsciiIsSpace c then [] else [c]) := by
  induction l with
  | nil => rfl
  | cons c r ih =>
    by_cases h32 : c = 32
    · simp [cleanupCopy, h32, ih]
    · by_cases hsp : gAsciiIsSpace c
      · simp [cleanupCopy, h32, hsp, ih]
      · simp [cleanupCopy, h32, hsp, ih]

/-- C10 amended: when `G_URI_PARSE_STRICT` is not set and the input contains
a space, tab, LF or CR (the `strpbrk` set), the string is preprocessed by
`uri_cleanup`: leading and trailing `g_ascii_isspace` whitespace (which also
includes `\f` and `\v`) is stripped, every remaining space becomes `%20`,
and other whitespace bytes are deleted.  With `STRICT` set — or when the
input has whitespace only outside the `strpbrk` set, such as a lone `\f` —
the input is split unmodified. -/
theorem guri_c10_cleanup_amended :
    (∀ s : Bytes, uri_cleanup s = cleanupSpec s)
    ∧ (g_uri_new (bytesOf "  http://h/a\tb c ") defaultFlags).toOption.map
        GUri.path = some (bytesOf "/ab%20c")
    ∧ (g_uri_new (bytesOf "http://h/a b") strictOnlyFlags).toOption.map
        GUri.path = some (bytesOf "/a b")
    ∧ (g_uri_new (bytesOf "http://h/a\x0Cb") defaultFlags).toOption.map
        GUri.path = some (bytesOf "/a\x0Cb") := by
  refine ⟨fun s => ?_, by decide, by decide, by decide⟩
  unfold uri_cleanup cleanupSpec
  exact cleanupCopy_eq_flatMap _

/-- C7 amended: for every non-bracketed raw host that is not itself
textually an IP address, parsed without `NON_DNS`, whose strict
percent-decoding succeeds and yields a string that does match the IP-address
grammar, `parse_host` fails with BadHost.  The claim's concrete example is
replaced by one whose decoding really is IP-shaped:
`parse("http://1%2E2%2E3%2E4/")` (decoding to `1.2.3.4`) fails with BadHost,
while `http://host%2E1%2E1%2E1/` (decoding to `host.1.1.1`, not an IP
address) is accepted. -/
theorem guri_c7_encoded_ip_amended :
    (∀ (raw : Bytes) (flags : GUriParseFlags) (d : Bytes),
      (raw.head? == some 91) = false →
      gHostnameIsIpAddress raw = false →
      flags.nonDns = false →
      uri_decode raw strictOnlyFlags .badHost = Except.ok d →
      gHostnameIsIpAddress d = true →
      parse_host raw flags = Except.error .badHost)
    ∧ g_uri_new (bytesOf "http://1%2E2%2E3%2E4/") defaultFlags
        = Except.error .badHost := by
  refine ⟨fun raw flags d h1 h2 h3 hd h4 => ?_, by decide⟩
  unfold parse_host
  rw [h1, h2, h3]
  simp only [Bool.false_eq_true, if_false, hd]
  simp only [bind, Except.bind, h4]
  simp

/-- Witness for C7: the amended theorem applied at the concrete raw host
`1%2E2%2E3%2E4` with default flags. -/
theorem guri_c7_encoded_ip_amended_witness :
    parse_host (bytesOf "1%2E2%2E3%2E4") defaultFlags = Except.error .badHost :=
  guri_c7_encoded_ip_amended.1 (bytesOf "1%2E2%2E3%2E4") defaultFlags
    (bytesOf "1.2.3.4") (by decide) (by decide) (by decide) (by decide)
    (by decide)

theorem decodeLoop_lenient_ok (justNorm : Bool) (err : GUriError) :
    ∀ (fuel : Nat) (l : Bytes),
      ∃ d, decodeLoop false justNorm err fuel l = Except.ok d := by
  intro fuel
  induction fuel with
  | zero =>
    intro l
    cases l with
    | nil => exact ⟨[], rfl⟩
    | cons c r => exact ⟨c :: r, rfl⟩
  | succ n ih =>
    intro l
    cases l with
    | nil => exact ⟨[], rfl⟩
    | cons c r =>
      by_cases hc : (c == 37) = true
      · cases r with
        | nil =>
          obtain ⟨d, hd⟩ := ih []
          exact ⟨37 :: d, by simp [decodeLoop, hc, hd]⟩
        | cons h1 r1 =>
          cases r1 with
          | nil =>
            obtain ⟨d, hd⟩ := ih [h1]
            exact ⟨37 :: d, by simp [decodeLoop, hc, hd]⟩
          | cons h2 r2 =>
            by_cases hx : (gAsciiIsXdigit h1 && gAsciiIsXdigit h2) = true
            · by_cases hn :
                  (justNorm && !gUriCharIsUnreserved
                    (((xdigitVal h1) <<< 4) + xdigitVal h2)) = true
              · obtain ⟨d, hd⟩ := ih (h1 :: h2 :: r2)
                exact ⟨37 :: d, by simp [decodeLoop, hc, hx, hn, hd]⟩
              · obtain ⟨d, hd⟩ := ih r2
                exact ⟨(((xdigitVal h1) <<< 4) + xdigitVal h2) :: d,
                  by simp [decodeLoop, hc, hx, hn, hd]⟩
            · obtain ⟨d, hd⟩ := ih (h1 :: h2 :: r2)
              exact ⟨37 :: d, by simp [decodeLoop, hc, hx, hd]⟩
      · obtain ⟨d, hd⟩ := ih r
        exact ⟨c :: d, by simp [decodeLoop, hc, hd]⟩

theorem uri_decode_misc_ok (l : Bytes) :
    uri_decode l defaultFlags .misc = Except.ok (uriDecodeTotal l) := by
  obtain ⟨d, hd⟩ := decodeLoop_lenient_ok false .misc l.length l
  unfold uriDecodeTotal uri_decode uri_decoder
  simp only [defaultFlags, if_neg, Bool.false_eq_true, ite_false, hd,
    bind, Except.bind]
  by_cases hv : utf8Valid d = true
  · simp [hv, pure, Except.pure, Except.toOption]
  · simp [hv, pure, Except.pure, Except.toOption]

theorem oOr_assoc (a b c : Option Bytes) :
    oOr (oOr a b) c = oOr a (oOr b c) := by
  cases a <;> rfl

theorem oOr_none (a : Option Bytes) : oOr a none = a := by
  cases a <;> rfl

theorem paramsKeyEq_symm (ci : Bool) (a b : Bytes) :
    paramsKeyEq ci a b = paramsKeyEq ci b a := by
  cases ci
  · by_cases h : a = b
    · subst h; rfl
    · have h1 : (a == b) = false := beq_eq_false_iff_ne.mpr h
      have h2 : (b == a) = false :=
        beq_eq_false_iff_ne.mpr (fun hh => h hh.symm)
      simp [paramsKeyEq, h1, h2]
  · by_cases h : gAsciiStrdown a = gAsciiStrdown b
    · simp [paramsKeyEq, h]
    · have h1 : (gAsciiStrdown a == gAsciiStrdown b) = false :=
        beq_eq_false_iff_ne.mpr h
      have h2 : (gAsciiStrdown b == gAsciiStrdown a) = false :=
        beq_eq_false_iff_ne.mpr (fun hh => h hh.symm)
      simp [paramsKeyEq, h1, h2]

theorem paramsKeyEq_trans (ci : Bool) (a b c : Bytes)
    (h1 : paramsKeyEq ci a b = true) (h2 : paramsKeyEq ci b c = true) :
    paramsKeyEq ci a c = true := by
  cases ci <;> simp [paramsKeyEq] at * <;> exact h1.trans h2

theorem tableLookup_tableInsert (ci : Bool) (k da dv : Bytes)
    (hash : List (Bytes × Bytes)) :
    tableLookup (paramsKeyEq ci) k (tableInsert (paramsKeyEq ci) da dv hash)
      = if paramsKeyEq ci da k then some dv
        else tableLookup (paramsKeyEq ci) k hash := by
  induction hash with
  | nil => simp [tableInsert, tableLookup]
  | cons p rest ih =>
    obtain ⟨k0, v0⟩ := p
    by_cases h0 : paramsKeyEq ci k0 da = true
    · by_cases hk : paramsKeyEq ci k0 k = true
      · have hda : paramsKeyEq ci da k = true :=
          paramsKeyEq_trans ci da k0 k
            (by rw [paramsKeyEq_symm]; exact h0) hk
        simp [tableInsert, h0, tableLookup, hk, hda]
      · have hda : paramsKeyEq ci da k = false := by
          cases hcon : paramsKeyEq ci da k with
          | false => rfl
          | true => exact absurd (paramsKeyEq_trans ci k0 da k h0 hcon) hk
        simp [tableInsert, h0, tableLookup, hk, hda]
    · by_cases hk : paramsKeyEq ci k0 k = true
      · have hda : paramsKeyEq ci da k = false := by
          cases hcon : paramsKeyEq ci da k with
          | false => rfl
          | true =>
            exact absurd (paramsKeyEq_trans ci k0 k da hk
              (by rw [paramsKeyEq_symm]; exact hcon)) h0
        simp [tableInsert, h0, tableLookup, hk, hda]
      · simp [tableInsert, h0, tableLookup, hk, ih]

theorem tableLookup_append (eq : Bytes → Bytes → Bool) (k : Bytes)
    (l1 l2 : List (Bytes × Bytes)) :
    tableLookup eq k (l1 ++ l2)
      = oOr (tableLookup eq k l1) (tableLookup eq k l2) := by
  induction l1 with
  | nil => simp [tableLookup, oOr]
  | cons p rest ih =>
    obtain ⟨k0, v0⟩ := p
    by_cases hk : eq k0 k = true
    · simp [tableLookup, hk, oOr]
    · simp [tableLookup, hk, ih]

theorem lastWins_cons (eq : Bytes → Bytes → Bool) (da dv : Bytes)
    (prs : List (Bytes × Bytes)) (k : Bytes) :
    lastWins eq ((da, dv) :: prs) k
      = oOr (lastWins eq prs k) (if eq da k then some dv else none) := by
  unfold lastWins
  rw [List.reverse_cons, tableLookup_append]
  congr 1

theorem contains_firstIdxP (a : Nat) (l : Bytes) (h : l.contains a = true) :
    ∃ i, firstIdxP (fun c => c == a) l = some i := by
  induction l with
  | nil => simp [List.contains] at h
  | cons c r ih =>
    by_cases hc : (c == a) = true
    · exact ⟨0, by simp [firstIdxP, hc]⟩
    · have hr : r.contains a = true := by
        simp [List.contains, List.elem_cons] at h ⊢
        rcases h with h | h
        · exact absurd (by simp [h] : (c == a) = true) hc
        · exact h
      obtain ⟨i, hi⟩ := ih hr
      exact ⟨i + 1, by simp [firstIdxP, hc, hi]⟩

theorem parseParamsLoop_lastWins (sep : Nat) (ci : Bool) :
    ∀ (fuel : Nat) (rem : Bytes) (hash : List (Bytes × Bytes)),
      (∀ seg ∈ paramSegs sep fuel rem, seg.contains 61 = true) →
      ∃ tbl, parseParamsLoop sep ci fuel rem hash = some tbl ∧
        ∀ k, tableLookup (paramsKeyEq ci) k tbl
          = oOr (lastWins (paramsKeyEq ci)
                  ((paramSegs sep fuel rem).map decodeSeg) k)
                (tableLookup (paramsKeyEq ci) k hash) := by
  intro fuel
  induction fuel with
  | zero =>
    intro rem hash _
    cases rem with
    | nil =>
      exact ⟨hash, rfl, fun k => by simp [paramSegs, lastWins, tableLookup, oOr]⟩
    | cons c r =>
      exact ⟨hash, rfl, fun k => by simp [paramSegs, lastWins, tableLookup, oOr]⟩
  | succ n ih =>
    intro rem hash hseg
    cases rem with
    | nil =>
      exact ⟨hash, rfl, fun k => by simp [paramSegs, lastWins, tableLookup, oOr]⟩
    | cons c r =>
      have hseg0 : ((c :: r).take
          (firstIdxOrLen (fun x => x == sep) (c :: r))).contains 61 = true := by
        apply hseg
        simp [paramSegs]
      obtain ⟨i, hi⟩ := contains_firstIdxP 61 _ hseg0
      obtain ⟨tbl, hloop, hlook⟩ := ih
        ((c :: r).drop (firstIdxOrLen (fun x => x == sep) (c :: r) + 1))
        (tableInsert (paramsKeyEq ci)
          (uriDecodeTotal (((c :: r).take
            (firstIdxOrLen (fun x => x == sep) (c :: r))).take i))
          (uriDecodeTotal (((c :: r).take
            (firstIdxOrLen (fun x => x == sep) (c :: r))).drop (i + 1)))
          hash)
        (fun seg hs => hseg seg (by simp [paramSegs]; right; exact hs))
      refine ⟨tbl, ?_, ?_⟩
      · rw [show parseParamsLoop sep ci (n + 1) (c :: r) hash = _ from rfl]
        simp only [parseParamsLoop, hi, uri_decode_misc_ok]
        exact hloop
      · intro k
        rw [hlook k]
        simp only [paramSegs, List.map_cons]
        rw [show decodeSeg ((c :: r).take
            (firstIdxOrLen (fun x => x == sep) (c :: r)))
          = (uriDecodeTotal (((c :: r).take
              (firstIdxOrLen (fun x => x == sep) (c :: r))).take i),
             uriDecodeTotal (((c :: r).take
              (firstIdxOrLen (fun x => x == sep) (c :: r))).drop (i + 1)))
          from by simp [decodeSeg, hi]]
        rw [lastWins_cons, oOr_assoc, tableLookup_tableInsert]
        congr 1
        by_cases hda : paramsKeyEq ci (uriDecodeTotal (((c :: r).take
            (firstIdxOrLen (fun x => x == sep) (c :: r))).take i)) k = true <;>
          simp [hda, oOr]

/-- C9 (confirmed): whenever every separator-delimited piece of the params
string contains an `'='`, `g_uri_parse_params` returns a table, and looking
any key up in that table gives the decoded value of the LAST piece whose
decoded attribute equals that key; in particular
`parse_params("a=1;b=2;a=3", -1, ';', false)` gives the table
`{a: "3", b: "2"}`. -/
theorem guri_c9_params_last_wins :
    (∀ (params : Bytes) (sep : Nat) (ci : Bool),
      (∀ seg ∈ paramSegs sep (params.length + 1) params,
        seg.contains 61 = true) →
      ∃ tbl, g_uri_parse_params params (-1) sep ci = some tbl ∧
        ∀ k, tableLookup (paramsKeyEq ci) k tbl
          = lastWins (paramsKeyEq ci)
              ((paramSegs sep (params.length + 1) params).map decodeSeg) k)
    ∧ g_uri_parse_params (bytesOf "a=1;b=2;a=3") (-1) 59 false
        = some [(bytesOf "a", bytesOf "3"), (bytesOf "b", bytesOf "2")] := by
  refine ⟨fun params sep ci h => ?_, by decide⟩
  obtain ⟨tbl, h1, h2⟩ := parseParamsLoop_lastWins sep ci (params.length + 1)
    params [] h
  refine ⟨tbl, ?_, fun k => ?_⟩
  · simpa [g_uri_parse_params] using h1
  · rw [h2 k]
    simp [tableLookup, oOr_none]

/-- Witness for C9: the general statement applied at
`parse_params("a=1;b=2;a=3", -1, ';', false)`. -/
theorem guri_c9_params_last_wins_witness :
    ∃ tbl, g_uri_parse_params (bytesOf "a=1;b=2;a=3") (-1) 59 false = some tbl ∧
      ∀ k, tableLookup (paramsKeyEq false) k tbl
        = lastWins (paramsKeyEq false)
            ((paramSegs 59 ((bytesOf "a=1;b=2;a=3").length + 1)
              (bytesOf "a=1;b=2;a=3")).map decodeSeg) k :=
  guri_c9_params_last_wins.1 (bytesOf "a=1;b=2;a=3") 59 false (by decide)

theorem firstIdxP_none_of (p : Nat → Bool) (l : Bytes)
    (h : ∀ c ∈ l, p c = false) : firstIdxP p l = none := by
  induction l with
  | nil => rfl
  | cons c r ih =>
    rw [show firstIdxP p (c :: r) = (firstIdxP p r).map (· + 1) from by
      simp [firstIdxP, h c (List.mem_cons_self c r)]]
    rw [ih (fun x hx => h x (List.mem_cons_of_mem c hx))]
    rfl

theorem firstIdxP_append (p : Nat → Bool) (a b : Bytes) :
    firstIdxP p (a ++ b)
      = match firstIdxP p a with
        | some i => some i
        | none => (firstIdxP p b).map (· + a.length) := by
  induction a with
  | nil =>
    cases hb : firstIdxP p b <;> simp [firstIdxP, hb]
  | cons c r ih =>
    by_cases hc : p c = true
    · simp [firstIdxP, hc]
    · have lhs : firstIdxP p ((c :: r) ++ b)
          = (firstIdxP p (r ++ b)).map (· + 1) := by
        simp [firstIdxP, hc]
      have rhs : firstIdxP p (c :: r) = (firstIdxP p r).map (· + 1) := by
        simp [firstIdxP, hc]
      rw [lhs, ih, rhs]
      cases hr : firstIdxP p r with
      | some i => rfl
      | none =>
        cases hb : firstIdxP p b with
        | none => rfl
        | some j =>
          show some (j + r.length + 1) = some (j + (c :: r).length)
          simp
          omega

theorem firstIdxP_at_mid (x y : Bytes) :
    ∃ j, j ≤ x.length ∧ firstIdxP (fun c => c == 64) (x ++ 64 :: y) = some j := by
  induction x with
  | nil => exact ⟨0, Nat.le_refl 0, by simp [firstIdxP]⟩
  | cons c r ih =>
    by_cases hc : (c == 64) = true
    · exact ⟨0, Nat.zero_le _, by simp [firstIdxP, hc]⟩
    · obtain ⟨j, hj1, hj2⟩ := ih
      refine ⟨j + 1, by simp; omega, ?_⟩
      simp [firstIdxP, hc, hj2]

theorem lastAtLoop_last (u h : Bytes)
    (h64 : firstIdxP (fun c => c == 64) h = none) :
    ∀ (fuel a0 : Nat), a0 ≤ u.length → u.length - a0 < fuel →
      lastAtLoop (u ++ 64 :: h) a0 fuel = u.length := by
  intro fuel
  induction fuel with
  | zero => intro a0 _ hlt; exact absurd hlt (by omega)
  | succ n ih =>
    intro a0 ha hlt
    by_cases heq : a0 = u.length
    · subst heq
      have hdrop : (u ++ 64 :: h).drop (u.length + 1) = h := by
        rw [show u ++ 64 :: h = (u ++ [64]) ++ h from by simp]
        exact List.drop_left' (by simp)
      simp [lastAtLoop, hdrop, h64]
    · have ha' : a0 < u.length := Nat.lt_of_le_of_ne ha heq
      have hdrop : (u ++ 64 :: h).drop (a0 + 1) = u.drop (a0 + 1) ++ 64 :: h :=
        List.drop_append_of_le_length (by omega)
      obtain ⟨j, hj1, hj2⟩ := firstIdxP_at_mid (u.drop (a0 + 1)) h
      have hjlen : (u.drop (a0 + 1)).length = u.length - (a0 + 1) := by simp
      rw [show lastAtLoop (u ++ 64 :: h) a0 (n + 1)
          = lastAtLoop (u ++ 64 :: h) (a0 + 1 + j) n from by
        simp only [lastAtLoop, hdrop, hj2]]
      exact ih (a0 + 1 + j) (by omega) (by omega)

theorem innerNone (u h : Bytes)
    (hu0 : firstIdxP (fun c => c == 47 || c == 63 || c == 35) u = none)
    (hh0 : firstIdxP (fun c => c == 47 || c == 63 || c == 35) h = none) :
    firstIdxP (fun c => c == 47 || c == 63 || c == 35) (u ++ 64 :: h) = none := by
  rw [firstIdxP_append, hu0]
  have hcons : firstIdxP (fun c => c == 47 || c == 63 || c == 35) (64 :: h)
      = (firstIdxP (fun c => c == 47 || c == 63 || c == 35) h).map (· + 1) := by
    simp [firstIdxP]
  rw [hcons, hh0]
  rfl

theorem authDelim_ps0 (u h rest : Bytes)
    (hu : ∀ c ∈ u, (c == 47 || c == 63 || c == 35) = false)
    (hh : ∀ c ∈ h, (c == 47 || c == 63 || c == 35) = false)
    (hr : rest = [] ∨ ∃ r0 rt, rest = r0 :: rt
      ∧ (r0 == 47 || r0 == 63 || r0 == 35) = true) :
    firstIdxOrLen (fun c => c == 47 || c == 63 || c == 35)
      (u ++ 64 :: h ++ rest) = u.length + 1 + h.length := by
  have hin := innerNone u h (firstIdxP_none_of _ u hu) (firstIdxP_none_of _ h hh)
  rcases hr with hre | ⟨r0, rt, hre, hr0⟩
  · subst hre
    have htot : firstIdxP (fun c => c == 47 || c == 63 || c == 35)
        (u ++ 64 :: h ++ []) = none := by
      rw [firstIdxP_append, hin]
      rfl
    rw [firstIdxOrLen, htot]
    simp
    omega
  · subst hre
    have hrest : firstIdxP (fun c => c == 47 || c == 63 || c == 35)
        (r0 :: rt) = some 0 := by simp [firstIdxP, hr0]
    have htot : firstIdxP (fun c => c == 47 || c == 63 || c == 35)
        (u ++ 64 :: h ++ r0 :: rt) = some (u.length + 1 + h.length) := by
      rw [firstIdxP_append, hin, hrest]
      show some (0 + (u ++ 64 :: h).length) = _
      simp
      omega
    rw [firstIdxOrLen, htot]
    rfl

theorem take_drop_mid (u h rest : Bytes) (m : Nat)
    (h1 : u.length + 1 ≤ m) (h2 : m ≤ u.length + 1 + h.length) :
    ((u ++ 64 :: h ++ rest).take m).drop (u.length + 1)
      = h.take (m - (u.length + 1)) := by
  rw [show u ++ 64 :: h ++ rest = (u ++ [64]) ++ (h ++ rest) from by simp]
  nth_rewrite 1 [show m = (u ++ [64]).length + (m - (u.length + 1)) from by
    simp; omega]
  rw [List.take_append, List.drop_left' (by simp)]
  exact List.take_append_of_le_length (by omega)

theorem hostFromRegion_take_some (h : Bytes) (m : Nat) (o : Option Nat) :
    ∃ k, some (hostFromRegion (h.take m) o) = some (h.take k) := by
  cases o with
  | none => exact ⟨m, rfl⟩
  | some c => exact ⟨min c m, by simp [hostFromRegion, List.take_take]⟩


theorem splitAuthority_last_at (u h rest : Bytes)
    (hu : ∀ c ∈ u, c ≠ 47 ∧ c ≠ 63 ∧ c ≠ 35)
    (hh : ∀ c ∈ h, c ≠ 47 ∧ c ≠ 63 ∧ c ≠ 35 ∧ c ≠ 64)
    (hr : rest = [] ∨ ∃ r0 rt, rest = r0 :: rt ∧ (r0 = 47 ∨ r0 = 63 ∨ r0 = 35)) :
    (splitAuthority (u ++ 64 :: h ++ rest) false).1 = some u
    ∧ ∃ k, (splitAuthority (u ++ 64 :: h ++ rest) false).2.1
        = some (h.take k) := by
  have hu2 : ∀ c ∈ u, ((c == 47 || c == 63 || c == 35)) = false := by
    intro c hc
    obtain ⟨h1, h2, h3⟩ := hu c hc
    simp [beq_eq_false_iff_ne.mpr h1, beq_eq_false_iff_ne.mpr h2,
      beq_eq_false_iff_ne.mpr h3]
  have hh2 : ∀ c ∈ h, ((c == 47 || c == 63 || c == 35)) = false := by
    intro c hc
    obtain ⟨h1, h2, h3, _⟩ := hh c hc
    simp [beq_eq_false_iff_ne.mpr h1, beq_eq_false_iff_ne.mpr h2,
      beq_eq_false_iff_ne.mpr h3]
  have hr2 : rest = [] ∨ ∃ r0 rt, rest = r0 :: rt
      ∧ (r0 == 47 || r0 == 63 || r0 == 35) = true := by
    rcases hr with hx | ⟨r0, rt, he, hd⟩
    · exact Or.inl hx
    · refine Or.inr ⟨r0, rt, he, ?_⟩
      rcases hd with hx | hx | hx <;> simp [hx]
  have h64 : firstIdxP (fun c => c == 64) h = none :=
    firstIdxP_none_of _ h (fun c hc => beq_eq_false_iff_ne.mpr (hh c hc).2.2.2)
  have hps0 := authDelim_ps0 u h rest hu2 hh2 hr2
  have hauth : (u ++ 64 :: h ++ rest).take (u.length + 1 + h.length)
      = u ++ 64 :: h := List.take_left' (by simp; omega)
  obtain ⟨a0, ha0le, hat⟩ := firstIdxP_at_mid u h
  have hlast : lastAtLoop (u ++ 64 :: h) a0 (u ++ 64 :: h).length = u.length :=
    lastAtLoop_last u h h64 _ a0 ha0le (by simp; omega)
  have htakeu : (u ++ 64 :: h).take u.length = u := List.take_left u (64 :: h)
  have hdropOff : (u ++ 64 :: h ++ rest).drop (u.length + 1) = h ++ rest := by
    rw [show u ++ 64 :: h ++ rest = (u ++ [64]) ++ (h ++ rest) from by simp]
    exact List.drop_left' (by simp)
  unfold splitAuthority
  simp only [hps0, hauth, hat, Bool.false_eq_true, if_false, hlast, htakeu,
    hdropOff]
  refine ⟨trivial, ?_⟩
  cases hsemi : firstIdxP (fun c => c == 59) (h ++ rest) with
  | none =>
    simp only []
    rw [take_drop_mid u h rest (u.length + 1 + h.length) (by omega) (by omega)]
    exact hostFromRegion_take_some h _ _
  | some j =>
    simp only []
    by_cases hj : u.length + 1 + j < u.length + 1 + h.length
    · simp only [if_pos hj]
      rw [take_drop_mid u h rest (u.length + 1 + j) (by omega) (by omega)]
      exact hostFromRegion_take_some h _ _
    · simp only [if_neg hj]
      rw [take_drop_mid u h rest (u.length + 1 + h.length) (by omega)
        (by omega)]
      exact hostFromRegion_take_some h _ _

/-- C6 (confirmed): in lenient mode, whenever the authority part of the
input contains at least one `'@'`, `g_uri_split` takes the text before the
LAST `'@'` as the userinfo and the text after it as the start of the host.
Formally: for an input `http://` (bytes 104 116 116 112 58 47 47) followed
by `u ++ '@' :: h ++ rest`, where `u` is free of `/?#` (but may itself
contain `'@'`), `h` is free of `/?#@`, and `rest` is empty or starts with
one of `/?#`, splitting leniently gives userinfo exactly `u` and a host
that is a prefix (`take`) of `h`; in particular
`split("http://u@r@host/", strict=false)` gives userinfo `u@r` and host
`host`. -/
theorem guri_c6_last_at_wins :
    (∀ (u h rest : Bytes),
      (∀ c ∈ u, c ≠ 47 ∧ c ≠ 63 ∧ c ≠ 35) →
      (∀ c ∈ h, c ≠ 47 ∧ c ≠ 63 ∧ c ≠ 35 ∧ c ≠ 64) →
      (rest = [] ∨ ∃ r0 rt, rest = r0 :: rt ∧ (r0 = 47 ∨ r0 = 63 ∨ r0 = 35)) →
      (g_uri_split (104 :: 116 :: 116 :: 112 :: 58 :: 47 :: 47 ::
          (u ++ 64 :: h ++ rest)) false).userinfo = some u
      ∧ ∃ k, (g_uri_split (104 :: 116 :: 116 :: 112 :: 58 :: 47 :: 47 ::
          (u ++ 64 :: h ++ rest)) false).host = some (h.take k))
    ∧ g_uri_split (bytesOf "http://u@r@host/") false
        = { scheme := some (bytesOf "http"), userinfo := some (bytesOf "u@r"),
            host := some (bytesOf "host"), port := none,
            path := some (bytesOf "/"), query := none, fragment := none } := by
  refine ⟨fun u h rest hu hh hr => ?_, by decide⟩
  exact splitAuthority_last_at u h rest hu hh hr

/-- Witness for C6: the general statement applied at userinfo `u@r`, host
`host`, remainder `/` (the concrete example of the claim). -/
theorem guri_c6_last_at_wins_witness :
    (g_uri_split (104 :: 116 :: 116 :: 112 :: 58 :: 47 :: 47 ::
        (bytesOf "u@r" ++ 64 :: bytesOf "host" ++ bytesOf "/")) false).userinfo
      = some (bytesOf "u@r")
    ∧ ∃ k, (g_uri_split (104 :: 116 :: 116 :: 112 :: 58 :: 47 :: 47 ::
        (bytesOf "u@r" ++ 64 :: bytesOf "host" ++ bytesOf "/")) false).host
      = some ((bytesOf "host").take k) :=
  guri_c6_last_at_wins.1 (bytesOf "u@r") (bytesOf "host") (bytesOf "/")
    (by decide) (by decide) (Or.inr ⟨47, [], by decide, Or.inl rfl⟩)

end GUriModel
